import Mathlib

/-!
Verification of the tonic-prometheus-layer instrumentation crate.

The development shallowly embeds the three source files:
  * `src/lib.rs`    — server-side `MetricsService` / `MetricsFuture`
  * `src/client.rs` — client-side `MetricsChannel` / `MetricsChannelFuture`
  * `src/metrics.rs` — global settings cell and metric instruments

Modelling choices:
  * Instants are natural numbers; `Duration::as_secs_f64` over
    `Instant::now().duration_since(start)` is modelled as truncated
    natural subtraction `now - start`.
  * A poll of a future is a pure step function.  The inner future's
    contribution to one poll is passed in as a `Poll` value, and the side
    effects on the Prometheus registry are returned as an ordered list of
    `MetricEvent`s (the order of the list is the order of the calls in the
    Rust source).
  * Paths are Lean `String`s; Rust byte indices are modelled as character
    indices (the paths involved are ASCII in all the specified behaviour).
  * `tonic::Code::from_bytes` belongs to an external dependency, so the
    outcome classifier is parameterised by the byte-decoding function
    `fb`; the repository code itself only chooses between `fb`, `Ok` and
    `Unknown`.
-/

namespace TPL

/-- The result of one progress check of a future (`std::task::Poll`). -/
inductive Poll (α : Type) : Type
  | ready (v : α)
  | pending
deriving DecidableEq, Repr

/-- The gRPC status codes of `tonic::Code`. -/
inductive Code : Type
  | ok
  | cancelled
  | unknown
  | invalidArgument
  | deadlineExceeded
  | notFound
  | alreadyExists
  | permissionDenied
  | resourceExhausted
  | failedPrecondition
  | aborted
  | outOfRange
  | unimplemented
  | internal
  | unavailable
  | dataLoss
  | unauthenticated
deriving DecidableEq, Repr

/-- The string produced by Rust's `format!("{:?}", code)` on a `tonic::Code`
(the derived `Debug` names). -/
def codeStr : Code → String
  | Code.ok => "Ok"
  | Code.cancelled => "Cancelled"
  | Code.unknown => "Unknown"
  | Code.invalidArgument => "InvalidArgument"
  | Code.deadlineExceeded => "DeadlineExceeded"
  | Code.notFound => "NotFound"
  | Code.alreadyExists => "AlreadyExists"
  | Code.permissionDenied => "PermissionDenied"
  | Code.resourceExhausted => "ResourceExhausted"
  | Code.failedPrecondition => "FailedPrecondition"
  | Code.aborted => "Aborted"
  | Code.outOfRange => "OutOfRange"
  | Code.unimplemented => "Unimplemented"
  | Code.internal => "Internal"
  | Code.unavailable => "Unavailable"
  | Code.dataLoss => "DataLoss"
  | Code.unauthenticated => "Unauthenticated"

/-- An HTTP response as the instrumentation sees it: the optional value of
the `grpc-status` header (as raw bytes) and the body. -/
structure Response (B : Type) : Type where
  grpcStatus : Option (List UInt8)
  body : B
deriving DecidableEq, Repr

/-- The outcome classifier of `MetricsFuture::poll` / `MetricsChannelFuture::poll`:
`v.as_ref().map_or(Code::Unknown, |resp| resp.headers().get("grpc-status")
  .map(|s| Code::from_bytes(s.as_bytes())).unwrap_or(Code::Ok))`.
`fb` stands for the external `Code::from_bytes`. -/
def classify {B E : Type} (fb : List UInt8 → Code) : Except E (Response B) → Code
  | Except.error _ => Code.unknown
  | Except.ok resp =>
    match resp.grpcStatus with
    | some s => fb s
    | none => Code.ok

/-- Index of the first occurrence of a character in a list (Rust `str::find`). -/
def findChar (c : Char) : List Char → Option Nat
  | [] => none
  | x :: xs => if x = c then some 0 else (findChar c xs).map (fun n => n + 1)

/-- The separator computation of `MetricsService::call`:
if the path starts with `'/'`, find the first `'/'` in `path[1..]` and add 1
(the `NonZeroUsize::new(p + 1).unwrap()`); otherwise `None`. -/
def serviceMethodSeparator (path : String) : Option Nat :=
  match path.data with
  | [] => none
  | first :: rest => if first = '/' then (findChar '/' rest).map (fun p => p + 1) else none

/-- The `(rpc_service, rpc_method)` split performed in `MetricsFuture::poll`:
`Some(sep)` gives `(&path[1..sep], &path[sep + 1..])`; `None` gives
`("", path)` (the code comment: "If unparseable, say service is empty and
method is the entire path"). -/
def rpcServiceMethod (path : String) (sep : Option Nat) : String × String :=
  match sep with
  | some s => (String.mk ((path.data.drop 1).take (s - 1)), String.mk (path.data.drop (s + 1)))
  | none => ("", path)

/-- The identity parser end to end: the separator is computed at `call` time
and the split at `poll` time. -/
def parseIdentity (path : String) : String × String :=
  rpcServiceMethod path (serviceMethodSeparator path)

/-- One observation pushed into the Prometheus registry by the server-side
instrumentation. Constructor order follows the statics of `metrics.rs`. -/
inductive MetricEvent : Type
  | gaugeMPInc (method path : String)
  | counterSMInc (service method : String)
  | counterMPInc (method path : String)
  | counterSMCInc (service method code : String)
  | histogramMPObserve (method path : String) (elapsed : Nat)
  | histogramSMCObserve (service method code : String) (elapsed : Nat)
  | gaugeMPDec (method path : String)
deriving DecidableEq, Repr

/-- The state of a `MetricsFuture` tracker (the wrapped inner future is kept
outside the state; its per-poll outcome is an argument of `poll`). -/
structure MetricsFuture : Type where
  method : String
  path : String
  service_method_separator : Option Nat
  started_at : Option Nat
deriving DecidableEq, Repr

/-- `MetricsFuture::new`: stores the labels and separator, `started_at: None`. -/
def MetricsFuture.new (method path : String) (sep : Option Nat) : MetricsFuture :=
  ⟨method, path, sep, none⟩

/-- `MetricsService::call`: computes the separator from the path and wraps the
inner call in a fresh tracker. -/
def MetricsService.call (method path : String) : MetricsFuture :=
  MetricsFuture.new method path (serviceMethodSeparator path)

/-- `MetricsFuture::poll`.  `now` is the value `Instant::now()` would return
during this poll; `innerPoll` is the outcome of `this.inner.poll(cx)`.
Returns the updated state, the poll result handed to the caller, and the
ordered list of registry observations made during this poll. -/
def MetricsFuture.poll {B E : Type} (fb : List UInt8 → Code) (self : MetricsFuture)
    (now : Nat) (innerPoll : Poll (Except E (Response B))) :
    MetricsFuture × Poll (Except E (Response B)) × List MetricEvent :=
  let sm := rpcServiceMethod self.path self.service_method_separator
  let startStep : Nat × List MetricEvent :=
    match self.started_at with
    | some t => (t, [])
    | none =>
      (now, [MetricEvent.gaugeMPInc self.method self.path,
             MetricEvent.counterSMInc sm.1 sm.2])
  let started_at := startStep.1
  let self1 : MetricsFuture :=
    ⟨self.method, self.path, self.service_method_separator, some started_at⟩
  match innerPoll with
  | Poll.ready v =>
    let code := classify fb v
    let code_str := codeStr code
    let elapsed := now - started_at
    (self1, Poll.ready v,
      startStep.2 ++
        [MetricEvent.counterMPInc self.method self.path,
         MetricEvent.counterSMCInc sm.1 sm.2 code_str,
         MetricEvent.histogramMPObserve self.method self.path elapsed,
         MetricEvent.histogramSMCObserve sm.1 sm.2 code_str elapsed,
         MetricEvent.gaugeMPDec self.method self.path])
  | Poll.pending => (self1, Poll.pending, startStep.2)

/-- The two "started" observations, in source order. -/
def startedEvents (method path : String) (sep : Option Nat) : List MetricEvent :=
  [MetricEvent.gaugeMPInc method path,
   MetricEvent.counterSMInc (rpcServiceMethod path sep).1 (rpcServiceMethod path sep).2]

/-- The five completion observations, in source order. -/
def completedEvents (method path : String) (sep : Option Nat) (code_str : String)
    (elapsed : Nat) : List MetricEvent :=
  [MetricEvent.counterMPInc method path,
   MetricEvent.counterSMCInc (rpcServiceMethod path sep).1 (rpcServiceMethod path sep).2 code_str,
   MetricEvent.histogramMPObserve method path elapsed,
   MetricEvent.histogramSMCObserve (rpcServiceMethod path sep).1
     (rpcServiceMethod path sep).2 code_str elapsed,
   MetricEvent.gaugeMPDec method path]

/-- A schedule of polls in which the inner future is still pending each time. -/
def pendingSched {B E : Type} (ts : List Nat) : List (Nat × Poll (Except E (Response B))) :=
  ts.map (fun t => (t, Poll.pending))

/-- The external scheduler: drives the tracker through a list of polls,
stopping as soon as the tracker returns `ready` (a resolved future is not
polled again).  Returns the final state and the concatenated event trace. -/
def drive {B E : Type} (fb : List UInt8 → Code) :
    MetricsFuture → List (Nat × Poll (Except E (Response B))) →
    MetricsFuture × List MetricEvent
  | self, [] => (self, [])
  | self, (now, ip) :: rest =>
    let step := MetricsFuture.poll fb self now ip
    match step.2.1 with
    | Poll.ready _ => (step.1, step.2.2)
    | Poll.pending =>
      let r := drive fb step.1 rest
      (r.1, step.2.2 ++ r.2)

/-- Event predicate: a "handled" counter increment (either labelling). -/
def isHandledInc : MetricEvent → Bool
  | MetricEvent.counterMPInc _ _ => true
  | MetricEvent.counterSMCInc _ _ _ => true
  | _ => false

/-- Event predicate: a latency histogram observation (either labelling). -/
def isHistogramObserve : MetricEvent → Bool
  | MetricEvent.histogramMPObserve _ _ _ => true
  | MetricEvent.histogramSMCObserve _ _ _ _ => true
  | _ => false

/-- Event predicate: the in-flight gauge increment. -/
def isGaugeInc : MetricEvent → Bool
  | MetricEvent.gaugeMPInc _ _ => true
  | _ => false

/-- Event predicate: the in-flight gauge decrement. -/
def isGaugeDec : MetricEvent → Bool
  | MetricEvent.gaugeMPDec _ _ => true
  | _ => false

/-- Event predicate: the "started" counter increment. -/
def isStartedInc : MetricEvent → Bool
  | MetricEvent.counterSMInc _ _ => true
  | _ => false

/-- The error type of `metrics.rs` (the `PrometheusEncoding` payload is
abstracted away). -/
inductive MetricsError : Type
  | alreadyInitialized
  | prometheusEncoding
deriving DecidableEq, Repr

/-- `GlobalSettings` of `metrics.rs`: the registry handle is abstracted to a
numeric identity and the `f64` bucket bounds are modelled as rationals. -/
structure GlobalSettings : Type where
  registry : Nat
  histogram_buckets : List Rat
deriving DecidableEq, Repr

/-- `DEFAULT_HISTOGRAM_BUCKETS` of `metrics.rs`:
`[0.005, 0.01, 0.025, 0.05, 0.075, 0.1, 0.25, 0.5, 0.75, 1.0, 2.5, 5.0, 7.5, 10.0]`. -/
def DEFAULT_HISTOGRAM_BUCKETS : List Rat :=
  [5/1000, 1/100, 25/1000, 5/100, 75/1000, 1/10, 1/4, 1/2, 3/4, 1, 5/2, 5, 15/2, 10]

/-- `impl Default for GlobalSettings`: default buckets and a fresh registry
(registry identity 0 stands for the fresh `prometheus::Registry::new()`). -/
def GlobalSettings.defaultSettings : GlobalSettings :=
  ⟨0, DEFAULT_HISTOGRAM_BUCKETS⟩

/-- `try_init_settings`: `GLOBAL_SETTINGS.try_insert(settings)` on the
`OnceCell`, whose state is the `Option GlobalSettings` argument.  Returns the
new cell state and the function's result. -/
def try_init_settings (cell : Option GlobalSettings) (settings : GlobalSettings) :
    Option GlobalSettings × Except MetricsError Unit :=
  match cell with
  | none => (some settings, Except.ok ())
  | some old => (some old, Except.error MetricsError.alreadyInitialized)

/-- `get_settings`: `GLOBAL_SETTINGS.get_or_init(Default::default)`.  Returns
the (possibly default-materialised) cell state and the settings read. -/
def get_settings (cell : Option GlobalSettings) : Option GlobalSettings × GlobalSettings :=
  match cell with
  | none => (some GlobalSettings.defaultSettings, GlobalSettings.defaultSettings)
  | some s => (some s, s)

/-- A sequence of `try_init_settings` calls threaded through the cell. -/
def try_init_many (cell : Option GlobalSettings) :
    List GlobalSettings → Option GlobalSettings × List (Except MetricsError Unit)
  | [] => (cell, [])
  | s :: rest =>
    let r := try_init_settings cell s
    let r2 := try_init_many r.1 rest
    (r2.1, r.2 :: r2.2)

/-- The bucket boundaries with which `HISTOGRAM_SMC` (and `HISTOGRAM_MP`) are
materialised when first used: `get_settings().histogram_buckets.clone()`. -/
def histogram_buckets_in_effect (cell : Option GlobalSettings) : List Rat :=
  (get_settings cell).2.histogram_buckets

/-- An observation pushed into the registry by the client-side
instrumentation of `client.rs`. -/
inductive ClientEvent : Type
  | startedInc (service method : String)
  | handledInc (service method code : String)
  | histogramObserve (service method code : String) (elapsed : Nat)
deriving DecidableEq, Repr

/-- The `tonic::GrpcMethod` request extension. -/
structure GrpcMethodExt : Type where
  service : String
  method : String
deriving DecidableEq, Repr

/-- An outgoing client request as `MetricsChannel::call` sees it: the optional
`GrpcMethod` extension, the URI path (never read by the client variant), and
the body. -/
structure ClientRequest (I : Type) : Type where
  grpcMethod : Option GrpcMethodExt
  uriPath : String
  body : I
deriving DecidableEq, Repr

/-- The state of a `MetricsChannelFuture` tracker. -/
structure MetricsChannelFuture : Type where
  service : String
  method : String
  started_at : Option Nat
deriving DecidableEq, Repr

/-- `MetricsChannelFuture::new`: stores the labels, `started_at: None`. -/
def MetricsChannelFuture.new (service method : String) : MetricsChannelFuture :=
  ⟨service, method, none⟩

/-- `MetricsChannel::call`: reads the `GrpcMethod` extension, falling back to
`("", "")`, and wraps the inner call in a fresh tracker. -/
def MetricsChannel.call {I : Type} (req : ClientRequest I) : MetricsChannelFuture :=
  let labels : String × String :=
    match req.grpcMethod with
    | some gm => (gm.service, gm.method)
    | none => ("", "")
  MetricsChannelFuture.new labels.1 labels.2

/-- `MetricsChannelFuture::poll`, analogous to `MetricsFuture.poll`. -/
def MetricsChannelFuture.poll {O E : Type} (fb : List UInt8 → Code)
    (self : MetricsChannelFuture) (now : Nat)
    (innerPoll : Poll (Except E (Response O))) :
    MetricsChannelFuture × Poll (Except E (Response O)) × List ClientEvent :=
  let startStep : Nat × List ClientEvent :=
    match self.started_at with
    | some t => (t, [])
    | none => (now, [ClientEvent.startedInc self.service self.method])
  let started_at := startStep.1
  let self1 : MetricsChannelFuture := ⟨self.service, self.method, some started_at⟩
  match innerPoll with
  | Poll.ready v =>
    let code := classify fb v
    let code_str := codeStr code
    let elapsed := now - started_at
    (self1, Poll.ready v,
      startStep.2 ++
        [ClientEvent.handledInc self.service self.method code_str,
         ClientEvent.histogramObserve self.service self.method code_str elapsed])
  | Poll.pending => (self1, Poll.pending, startStep.2)

/-! ### Helper lemmas about single polls -/

theorem poll_pending_of_started {B E : Type} (fb : List UInt8 → Code) (m p : String)
    (sep : Option Nat) (t now : Nat) :
    MetricsFuture.poll (B:=B) (E:=E) fb ⟨m, p, sep, some t⟩ now Poll.pending =
      (⟨m, p, sep, some t⟩, Poll.pending, []) := rfl

theorem poll_pending_of_new {B E : Type} (fb : List UInt8 → Code) (m p : String)
    (sep : Option Nat) (now : Nat) :
    MetricsFuture.poll (B:=B) (E:=E) fb ⟨m, p, sep, none⟩ now Poll.pending =
      (⟨m, p, sep, some now⟩, Poll.pending, startedEvents m p sep) := rfl

theorem poll_ready_of_started {B E : Type} (fb : List UInt8 → Code) (m p : String)
    (sep : Option Nat) (t now : Nat) (v : Except E (Response B)) :
    MetricsFuture.poll fb ⟨m, p, sep, some t⟩ now (Poll.ready v) =
      (⟨m, p, sep, some t⟩, Poll.ready v,
        completedEvents m p sep (codeStr (classify fb v)) (now - t)) := rfl

theorem poll_ready_of_new {B E : Type} (fb : List UInt8 → Code) (m p : String)
    (sep : Option Nat) (now : Nat) (v : Except E (Response B)) :
    MetricsFuture.poll fb ⟨m, p, sep, none⟩ now (Poll.ready v) =
      (⟨m, p, sep, some now⟩, Poll.ready v,
        startedEvents m p sep ++
          completedEvents m p sep (codeStr (classify fb v)) (now - now)) := rfl

/-! ### Helper lemmas about driven runs -/

theorem drive_nil {B E : Type} (fb : List UInt8 → Code) (self : MetricsFuture) :
    drive (B:=B) (E:=E) fb self [] = (self, []) := rfl

theorem drive_cons {B E : Type} (fb : List UInt8 → Code) (self : MetricsFuture)
    (now : Nat) (ip : Poll (Except E (Response B)))
    (rest : List (Nat × Poll (Except E (Response B)))) :
    drive fb self ((now, ip) :: rest) =
      (match (MetricsFuture.poll fb self now ip).2.1 with
       | Poll.ready _ =>
         ((MetricsFuture.poll fb self now ip).1, (MetricsFuture.poll fb self now ip).2.2)
       | Poll.pending =>
         ((drive fb (MetricsFuture.poll fb self now ip).1 rest).1,
          (MetricsFuture.poll fb self now ip).2.2 ++
            (drive fb (MetricsFuture.poll fb self now ip).1 rest).2)) := rfl

theorem drive_pending_of_started {B E : Type} (fb : List UInt8 → Code) (m p : String)
    (sep : Option Nat) (t : Nat) (ts : List Nat) :
    drive (B:=B) (E:=E) fb ⟨m, p, sep, some t⟩ (pendingSched ts) =
      (⟨m, p, sep, some t⟩, []) := by
  induction ts with
  | nil => rfl
  | cons t1 rest ih =>
    rw [show pendingSched (B:=B) (E:=E) (t1 :: rest) =
          (t1, Poll.pending) :: pendingSched rest from rfl,
        drive_cons, poll_pending_of_started]
    simp [ih]

theorem drive_complete_of_started {B E : Type} (fb : List UInt8 → Code) (m p : String)
    (sep : Option Nat) (t tc : Nat) (ts : List Nat) (v : Except E (Response B)) :
    drive fb ⟨m, p, sep, some t⟩ (pendingSched ts ++ [(tc, Poll.ready v)]) =
      (⟨m, p, sep, some t⟩,
        completedEvents m p sep (codeStr (classify fb v)) (tc - t)) := by
  induction ts with
  | nil =>
    rw [show pendingSched (B:=B) (E:=E) [] ++ [(tc, Poll.ready v)] =
          [(tc, Poll.ready v)] from rfl, drive_cons, poll_ready_of_started]
  | cons t1 rest ih =>
    rw [show pendingSched (B:=B) (E:=E) (t1 :: rest) ++ [(tc, Poll.ready v)] =
          (t1, Poll.pending) :: (pendingSched rest ++ [(tc, Poll.ready v)]) from rfl,
        drive_cons, poll_pending_of_started]
    simp [ih]

theorem drive_complete_of_new {B E : Type} (fb : List UInt8 → Code) (m p : String)
    (sep : Option Nat) (tc : Nat) (ts : List Nat) (v : Except E (Response B)) :
    drive fb (MetricsFuture.new m p sep) (pendingSched ts ++ [(tc, Poll.ready v)]) =
      (⟨m, p, sep, some (ts.headD tc)⟩,
        startedEvents m p sep ++
          completedEvents m p sep (codeStr (classify fb v)) (tc - ts.headD tc)) := by
  cases ts with
  | nil =>
    rw [show pendingSched (B:=B) (E:=E) [] ++ [(tc, Poll.ready v)] =
          [(tc, Poll.ready v)] from rfl]
    rw [show MetricsFuture.new m p sep = (⟨m, p, sep, none⟩ : MetricsFuture) from rfl,
        drive_cons, poll_ready_of_new]
    rfl
  | cons t1 rest =>
    rw [show pendingSched (B:=B) (E:=E) (t1 :: rest) ++ [(tc, Poll.ready v)] =
          (t1, Poll.pending) :: (pendingSched rest ++ [(tc, Poll.ready v)]) from rfl]
    rw [show MetricsFuture.new m p sep = (⟨m, p, sep, none⟩ : MetricsFuture) from rfl,
        drive_cons, poll_pending_of_new]
    simp [drive_complete_of_started]

theorem findChar_of_not_mem (c : Char) (l : List Char) (h : c ∉ l) :
    findChar c l = none := by
  induction l with
  | nil => rfl
  | cons x xs ih =>
    rw [List.mem_cons, not_or] at h
    have hx : ¬ x = c := fun he => h.1 he.symm
    simp [findChar, hx, ih h.2]

theorem findChar_append (c : Char) (s m : List Char) (h : c ∉ s) :
    findChar c (s ++ c :: m) = some s.length := by
  induction s with
  | nil => simp [findChar]
  | cons x xs ih =>
    rw [List.mem_cons, not_or] at h
    have hx : ¬ x = c := fun he => h.1 he.symm
    simp [findChar, hx, ih h.2]

theorem parseIdentity_slash (s m : List Char) (hs : ('/' : Char) ∉ s) :
    parseIdentity (String.mk ('/' :: (s ++ '/' :: m))) = (String.mk s, String.mk m) := by
  have hsep : serviceMethodSeparator (String.mk ('/' :: (s ++ '/' :: m)))
      = some (s.length + 1) := by
    simp [serviceMethodSeparator, findChar_append '/' s m hs]
  rw [parseIdentity, hsep]
  show (String.mk ((s ++ '/' :: m).take s.length),
        String.mk ((s ++ '/' :: m).drop (s.length + 1))) = (String.mk s, String.mk m)
  rw [List.take_left]
  rw [show s ++ '/' :: m = (s ++ ['/']) ++ m from by simp]
  rw [show s.length + 1 = (s ++ ['/']).length from by simp]
  rw [List.drop_left]

theorem parseIdentity_noslash (c : Char) (rest : List Char) (hc : c ≠ '/') :
    serviceMethodSeparator (String.mk (c :: rest)) = none ∧
    parseIdentity (String.mk (c :: rest)) = ("", String.mk (c :: rest)) := by
  have hsep : serviceMethodSeparator (String.mk (c :: rest)) = none := by
    simp [serviceMethodSeparator, hc]
  exact ⟨hsep, by rw [parseIdentity, hsep]; rfl⟩

theorem parseIdentity_slash_nosecond (rest : List Char) (h : ('/' : Char) ∉ rest) :
    serviceMethodSeparator (String.mk ('/' :: rest)) = none ∧
    parseIdentity (String.mk ('/' :: rest)) = ("", String.mk ('/' :: rest)) := by
  have hsep : serviceMethodSeparator (String.mk ('/' :: rest)) = none := by
    simp [serviceMethodSeparator, findChar_of_not_mem '/' rest h]
  exact ⟨hsep, by rw [parseIdentity, hsep]; rfl⟩

theorem try_init_many_full (s1 : GlobalSettings) : ∀ rest : List GlobalSettings,
    try_init_many (some s1) rest =
      (some s1, rest.map (fun _ => Except.error MetricsError.alreadyInitialized))
  | [] => rfl
  | s :: rest => by
    simp [try_init_many, try_init_settings, try_init_many_full s1 rest]

theorem drive_pending_of_new {B E : Type} (fb : List UInt8 → Code) (m p : String)
    (sep : Option Nat) (ts : List Nat) :
    drive (B:=B) (E:=E) fb (MetricsFuture.new m p sep) (pendingSched ts) =
      (⟨m, p, sep, ts.head?⟩,
        if ts.isEmpty then [] else startedEvents m p sep) := by
  cases ts with
  | nil => rfl
  | cons t1 rest =>
    rw [show pendingSched (B:=B) (E:=E) (t1 :: rest) =
          (t1, Poll.pending) :: pendingSched rest from rfl]
    rw [show MetricsFuture.new m p sep = (⟨m, p, sep, none⟩ : MetricsFuture) from rfl,
        drive_cons, poll_pending_of_new]
    simp [drive_pending_of_started]

/-! ### Claim theorems -/

/-- C1: the "started" side effects (gauge increment, started-counter increment
and capture of the start instant) fire exactly once, on the first poll, never
at construction.  A tracker constructed by `MetricsFuture::new` has no start
instant; driving it through any sequence of pending polls leaves a trace that
is empty when it was never polled and exactly the two started observations
otherwise, with the start instant equal to the first poll's clock reading;
the started-counter count of the trace is accordingly 0 or 1. -/
theorem started_fires_exactly_once_on_first_poll {B E : Type} (fb : List UInt8 → Code)
    (m p : String) (sep : Option Nat) (ts : List Nat) :
    (MetricsFuture.new m p sep).started_at = none ∧
    drive (B:=B) (E:=E) fb (MetricsFuture.new m p sep) (pendingSched ts) =
      (⟨m, p, sep, ts.head?⟩, if ts.isEmpty then [] else startedEvents m p sep) ∧
    ((drive (B:=B) (E:=E) fb (MetricsFuture.new m p sep) (pendingSched ts)).2.countP
        isStartedInc = if ts.isEmpty then 0 else 1) := by
  refine ⟨rfl, drive_pending_of_new fb m p sep ts, ?_⟩
  rw [drive_pending_of_new]
  cases ts with
  | nil => rfl
  | cons t1 rest =>
    simp [startedEvents, isStartedInc, List.countP_cons]

/-- C2: for a tracker whose inner future resolves, the completion side effects
fire exactly once, on the resolving poll, in source order (handled counters,
then latency histograms, then the gauge decrement), all labelled from the
path/separator captured at creation plus the freshly classified outcome, and
the recorded duration is the resolving poll's clock reading minus the clock
reading of the first poll (`ts.headD tc`), never a duration measured from
construction (construction records no instant at all). -/
theorem completion_fires_once_with_first_poll_duration {B E : Type}
    (fb : List UInt8 → Code) (m p : String) (sep : Option Nat) (ts : List Nat)
    (tc : Nat) (v : Except E (Response B)) :
    drive fb (MetricsFuture.new m p sep) (pendingSched ts ++ [(tc, Poll.ready v)]) =
      (⟨m, p, sep, some (ts.headD tc)⟩,
        startedEvents m p sep ++
          completedEvents m p sep (codeStr (classify fb v)) (tc - ts.headD tc)) :=
  drive_complete_of_new fb m p sep tc ts v

/-- C3: the tracker is transparent to the wrapped call's observable result:
one poll of the `MetricsFuture` returns to the caller exactly the inner
future's poll outcome — `Pending` when the inner is pending, and the very
same `Result` value when the inner resolves. -/
theorem poll_transparent_to_inner_result {B E : Type} (fb : List UInt8 → Code)
    (self : MetricsFuture) (now : Nat) (ip : Poll (Except E (Response B))) :
    (MetricsFuture.poll fb self now ip).2.1 = ip := by
  cases self with
  | mk m p sep st => cases st <;> cases ip <;> rfl

/-- C4 counterexample: on the path `"/onlyservice"` the identity parser
returns method `"/onlyservice"` (the entire path, leading separator
included), not the stripped `"onlyservice"` the claim states. -/
theorem parse_onlyservice_counterexample :
    parseIdentity "/onlyservice" = ("", "/onlyservice") ∧
    ¬ parseIdentity "/onlyservice" = ("", "onlyservice") := by
  constructor
  · decide
  · decide

/-- C4 amended: for a path that begins with the separator but contains no
second separator, the separator computation yields `None` and the identity
parser returns service = empty string and method = the entire path with its
leading separator still in place. -/
theorem parse_no_second_separator_amended (rest : List Char)
    (h : ('/' : Char) ∉ rest) :
    serviceMethodSeparator (String.mk ('/' :: rest)) = none ∧
    parseIdentity (String.mk ('/' :: rest)) = ("", String.mk ('/' :: rest)) :=
  parseIdentity_slash_nosecond rest h

/-- C4 amended, witness at the concrete path `"/onlyservice"`. -/
theorem parse_no_second_separator_amended_witness :
    parseIdentity "/onlyservice" = ("", "/onlyservice") :=
  (parse_no_second_separator_amended "onlyservice".data (by decide)).2

/-- C5: a path of the shape `'/' ++ s ++ '/' ++ m` with no separator inside
`s` splits at that first separator after position 0 into service `s` and
method `m`, both exclusive of the separators; a path not beginning with the
separator (and likewise the empty path) parses to service = empty string and
method = the entire path.  The parser is a total function, so no path fails
the call. -/
theorem parse_identity_split_and_fallback (s m : List Char) (c : Char)
    (rest : List Char) (hs : ('/' : Char) ∉ s) (hc : c ≠ '/') :
    parseIdentity (String.mk ('/' :: (s ++ '/' :: m))) = (String.mk s, String.mk m) ∧
    parseIdentity (String.mk (c :: rest)) = ("", String.mk (c :: rest)) ∧
    parseIdentity "" = ("", "") :=
  ⟨parseIdentity_slash s m hs, (parseIdentity_noslash c rest hc).2, rfl⟩

/-- C5 witness at the concrete paths `"/pkg.Service/Method"` and `"noslash"`. -/
theorem parse_identity_split_and_fallback_witness :
    parseIdentity "/pkg.Service/Method" = ("pkg.Service", "Method") ∧
    parseIdentity "noslash" = ("", "noslash") := by
  have h := parse_identity_split_and_fallback "pkg.Service".data "Method".data
    'n' "oslash".data (by decide) (by decide)
  exact ⟨h.1, h.2.1⟩

/-- C6: the outcome classifier is total (it is a Lean function defined on
every `Except` value) and follows the defaulting rules: an error (no
response) classifies as `Unknown`; a successful response without a
`grpc-status` header classifies as `Ok`; when the header is present the
status is exactly the one decoded from the header value. -/
theorem classifier_total_and_defaults {B E : Type} (fb : List UInt8 → Code)
    (e : E) (b : B) (s : List UInt8) :
    classify (B:=B) fb (Except.error e) = Code.unknown ∧
    classify (E:=E) fb (Except.ok ⟨none, b⟩) = Code.ok ∧
    classify (E:=E) fb (Except.ok ⟨some s, b⟩) = fb s :=
  ⟨rfl, rfl, rfl⟩

/-- C7: `try_init_settings` succeeds at most once: from the empty cell the
first call stores its settings and returns `Ok`; every later call (any
sequence of them) returns `AlreadyInitialized` and leaves the stored
settings — hence the histogram bucket boundaries used by every instrument
materialised afterwards — unchanged. -/
theorem try_init_settings_at_most_once (s1 : GlobalSettings)
    (rest : List GlobalSettings) :
    try_init_settings none s1 = (some s1, Except.ok ()) ∧
    try_init_many (some s1) rest =
      (some s1, rest.map (fun _ => Except.error MetricsError.alreadyInitialized)) ∧
    histogram_buckets_in_effect (some s1) = s1.histogram_buckets :=
  ⟨rfl, try_init_many_full s1 rest, rfl⟩

/-- C8: in the event trace of any completing run — including the run where a
single poll both starts and completes the call (`ts = []`) — the started
counter is incremented exactly once, the outcome-labelled handled counter is
incremented exactly once, and the started increment occurs at a strictly
earlier trace position than the handled increment. -/
theorem started_strictly_before_handled {B E : Type} (fb : List UInt8 → Code)
    (m p : String) (sep : Option Nat) (ts : List Nat) (tc : Nat)
    (v : Except E (Response B)) :
    ((drive fb (MetricsFuture.new m p sep)
        (pendingSched ts ++ [(tc, Poll.ready v)])).2.count
      (MetricEvent.counterSMInc (rpcServiceMethod p sep).1 (rpcServiceMethod p sep).2) = 1) ∧
    ((drive fb (MetricsFuture.new m p sep)
        (pendingSched ts ++ [(tc, Poll.ready v)])).2.count
      (MetricEvent.counterSMCInc (rpcServiceMethod p sep).1 (rpcServiceMethod p sep).2
        (codeStr (classify fb v))) = 1) ∧
    (∃ i j, i < j ∧
      (drive fb (MetricsFuture.new m p sep)
          (pendingSched ts ++ [(tc, Poll.ready v)])).2.get? i =
        some (MetricEvent.counterSMInc (rpcServiceMethod p sep).1
          (rpcServiceMethod p sep).2) ∧
      (drive fb (MetricsFuture.new m p sep)
          (pendingSched ts ++ [(tc, Poll.ready v)])).2.get? j =
        some (MetricEvent.counterSMCInc (rpcServiceMethod p sep).1
          (rpcServiceMethod p sep).2 (codeStr (classify fb v)))) := by
  rw [drive_complete_of_new]
  refine ⟨?_, ?_, 1, 3, by omega, rfl, rfl⟩
  · simp [startedEvents, completedEvents, List.count_cons]
  · simp [startedEvents, completedEvents, List.count_cons]

/-- C9: a tracker that is never polled to completion (driven through pending
polls only) emits no handled-counter increment, no histogram observation and
no gauge decrement; a tracker that does complete increments the in-flight
gauge exactly once and decrements it exactly once. -/
theorem abandoned_run_emits_no_completion {B E : Type} (fb : List UInt8 → Code)
    (m p : String) (sep : Option Nat) (ts ts2 : List Nat) (tc : Nat)
    (v : Except E (Response B)) :
    ((drive (B:=B) (E:=E) fb (MetricsFuture.new m p sep) (pendingSched ts)).2.countP
        isHandledInc = 0) ∧
    ((drive (B:=B) (E:=E) fb (MetricsFuture.new m p sep) (pendingSched ts)).2.countP
        isHistogramObserve = 0) ∧
    ((drive (B:=B) (E:=E) fb (MetricsFuture.new m p sep) (pendingSched ts)).2.countP
        isGaugeDec = 0) ∧
    ((drive fb (MetricsFuture.new m p sep)
        (pendingSched ts2 ++ [(tc, Poll.ready v)])).2.countP isGaugeInc = 1) ∧
    ((drive fb (MetricsFuture.new m p sep)
        (pendingSched ts2 ++ [(tc, Poll.ready v)])).2.countP isGaugeDec = 1) := by
  rw [drive_pending_of_new, drive_complete_of_new]
  refine ⟨?_, ?_, ?_, ?_, ?_⟩ <;>
    cases ts <;>
      simp [startedEvents, completedEvents, isHandledInc, isHistogramObserve,
        isGaugeInc, isGaugeDec, List.countP_cons]

/-- C10: the client channel reads only the `GrpcMethod` extension — the URI
path (and body) never influence the labels — and when the extension is
absent the call is still instrumented, with service and method both the
empty string: the tracker is constructed with those labels and its first
poll emits the client started-counter increment under them. -/
theorem client_labels_from_extension_only {I O E : Type} (fb : List UInt8 → Code)
    (gm : Option GrpcMethodExt) (p p' : String) (b b' : I) (now : Nat) :
    MetricsChannel.call (⟨gm, p, b⟩ : ClientRequest I) =
      MetricsChannel.call (⟨gm, p', b'⟩ : ClientRequest I) ∧
    MetricsChannel.call (⟨none, p, b⟩ : ClientRequest I) =
      MetricsChannelFuture.new "" "" ∧
    (MetricsChannelFuture.poll (O:=O) (E:=E) fb
        (MetricsChannel.call (⟨none, p, b⟩ : ClientRequest I)) now Poll.pending).2.2 =
      [ClientEvent.startedInc "" ""] := by
  refine ⟨?_, rfl, rfl⟩
  cases gm <;> rfl

end TPL
